import Mathlib

/-!
Shallow embedding of the adaptive page-sizing engine of md2pdf:
the image fit-rule and footprint calculator, the measurement fold,
the extent corrector, the canvas resizer, the PNG/JPEG header parsers,
and the renderer's image-node constructor.

JavaScript numbers are embedded as rationals.  Every arithmetic fact
used by a theorem below is exact in double precision for the constants
involved (noted where it matters), so the rational embedding agrees
with the source's floating-point evaluation on all inputs the theorems
touch.
-/

namespace Md2Pdf

/-! Embedding of src/config/paper.ts.
JavaScript Math.round rounds half-way cases toward positive infinity,
i.e. Math.round x = ⌊x + 1/2⌋ for finite x. -/

def jsRound (x : ℚ) : ℤ := ⌊x + 1/2⌋

/-- Rational embedding of the points-per-millimetre conversion
`const mm = (v) => Math.round(v * 2.83465)` from src/config/paper.ts.
For v = 10000 the double product of 10000 and the double nearest to
2.83465 is exactly 28346.5, which coincides with the exact rational
product, so the embedding is faithful at the one argument the core
uses. -/
def mm (v : ℚ) : ℚ := ((jsRound (v * 2.83465) : ℤ) : ℚ)

/-- Embedding of `MAX_PAGE_HEIGHT = mm(10000)` from src/config/paper.ts. -/
def MAX_PAGE_HEIGHT : ℚ := mm 10000

/-! Embedding of the margin 4-tuples [left, top, right, bottom]. -/

structure MarginBox where
  left : ℚ
  top : ℚ
  right : ℚ
  bottom : ℚ
deriving DecidableEq

/-- Embedding of `STYLES.margins.image = [0, 10, 0, 10]` from src/config/styles.ts. -/
def imageMargin : MarginBox := ⟨0, 10, 0, 10⟩

/-! Embedding of src/pdf/generator.ts. -/

/-- Embedding of `const IMAGE_FIT_WIDTH = 500` (src/pdf/generator.ts line 24). -/
def IMAGE_FIT_WIDTH : ℚ := 500

/-- Embedding of `const IMAGE_FIT_HEIGHT = 400` (src/pdf/generator.ts line 25). -/
def IMAGE_FIT_HEIGHT : ℚ := 400

structure ImageDimensions where
  width : ℚ
  height : ℚ
deriving DecidableEq

/-- Embedding of `calculateImageHeight` (src/pdf/generator.ts lines 28-42).
When `height = 0` the source divides by zero in floating point: for
`width > 0` the aspect is +∞, the width-constrained branch is taken and
the result is `500 / ∞ = 0`; for `width = 0` the aspect is NaN, the
comparison is false and the result is `min 0 400 = 0`.  The rational
convention `q / 0 = 0` always takes the second branch and also returns
`0`, so the embedded function agrees with the source at every input
with `height = 0` even though the branch taken differs. -/
def calculateImageHeight (dimensions : ImageDimensions) : ℚ :=
  let aspectOfImage := dimensions.width / dimensions.height
  let fitAspect := IMAGE_FIT_WIDTH / IMAGE_FIT_HEIGHT
  if aspectOfImage > fitAspect then
    IMAGE_FIT_WIDTH / aspectOfImage
  else
    min dimensions.height IMAGE_FIT_HEIGHT

/-- Per-image footprint: rendered height plus the image's top and bottom
margins, `renderedHeight + STYLES.margins.image[1] + STYLES.margins.image[3]`
(src/pdf/generator.ts line 60). -/
def imageFootprint (dimensions : ImageDimensions) : ℚ :=
  calculateImageHeight dimensions + imageMargin.top + imageMargin.bottom

/-! Embedding of the extent corrector inside `generatePDF`
(src/pdf/generator.ts lines 233-273).  Records (JavaScript objects
keyed by image id) are embedded as association lists with
update-or-append assignment, matching object key semantics: `Object.keys`
order is insertion order and re-assignment keeps the key's position. -/

/-- Embedding of the JavaScript object assignment `obj[k] = v`:
overwrite the entry if the key is present, append it otherwise. -/
def setEntry (l : List (String × ℚ)) (k : String) (v : ℚ) : List (String × ℚ) :=
  if l.any (fun p => p.1 = k) then
    l.map (fun p => if p.1 = k then (k, v) else p)
  else
    l ++ [(k, v)]

/-- Embedding of `Object.values(..).reduce((a, b) => a + b, 0)`
(src/pdf/generator.ts line 235). -/
def totalOfFootprints (imageHeights : List (String × ℚ)) : ℚ :=
  (imageHeights.map Prod.snd).sum

structure MeasurementResult where
  maxY : ℚ
  measuredImageHeights : List (String × ℚ)

/-- Embedding of the maximum-expected-bottom loop
(src/pdf/generator.ts lines 247-252): `expectedBottom = topPosition +
(imageHeights[imageId] || 0)`, folded with `Math.max` from 0. -/
def maxExpectedBottom (imagePositions imageHeights : List (String × ℚ)) : ℚ :=
  imagePositions.foldl
    (fun m p => max m (p.2 + ((imageHeights.lookup p.1).getD 0))) 0

/-- Embedding of the corrected content height computed by `generatePDF`
(src/pdf/generator.ts lines 241-266): top-offset reconciliation when
positions were captured and total footprint is positive, the empirical
0.22 fallback when only footprints exist, and the measured value
otherwise. -/
def correctedContentHeight (measurement : MeasurementResult)
    (imageHeights : List (String × ℚ)) : ℚ :=
  let totalImageHeight := totalOfFootprints imageHeights
  let imagePositions := measurement.measuredImageHeights
  if imagePositions ≠ [] ∧ totalImageHeight > 0 then
    let maxExpected := maxExpectedBottom imagePositions imageHeights
    let correction :=
      if measurement.maxY < maxExpected then maxExpected - measurement.maxY else 0
    measurement.maxY + correction
  else if totalImageHeight > 0 then
    measurement.maxY + totalImageHeight * (22 / 100)
  else
    measurement.maxY

/-- Embedding of the target page height (src/pdf/generator.ts lines
271-273): `topMargin + contentHeight + bottomMargin + 25`. -/
def targetPageHeight (topMargin bottomMargin contentHeight : ℚ) : ℚ :=
  topMargin + contentHeight + bottomMargin + 25

/-! Embedding of the pdfmake content tree as consumed by
`calculateImageHeights` (src/pdf/generator.ts lines 45-76).  A node is a
JavaScript object that may carry any combination of the keys the
traversal inspects (`image`, `stack`, `columns`) together with the
container keys the renderer can emit but the traversal ignores
(`ol`, `ul` from renderList, `table` from renderTable — the latter is
represented by its flattened cell list, which is enough to show it is
never recursed into). -/

inductive ContentNode where
  | mk (image : Option String)
       (stack : Option (List ContentNode))
       (columns : Option (List ContentNode))
       (ol : Option (List ContentNode))
       (ul : Option (List ContentNode))
       (table : Option (List ContentNode))

namespace ContentNode

def image : ContentNode → Option String
  | .mk i _ _ _ _ _ => i

def stack : ContentNode → Option (List ContentNode)
  | .mk _ s _ _ _ _ => s

def columns : ContentNode → Option (List ContentNode)
  | .mk _ _ c _ _ _ => c

def ol : ContentNode → Option (List ContentNode)
  | .mk _ _ _ o _ _ => o

def ul : ContentNode → Option (List ContentNode)
  | .mk _ _ _ _ u _ => u

def table : ContentNode → Option (List ContentNode)
  | .mk _ _ _ _ _ t => t

end ContentNode

/-- Shorthand for a node carrying only an image key, as produced by
`renderImage`. -/
def imageNode (id : String) : ContentNode := .mk (some id) none none none none none

/-- Embedding of the image-assignment step of `processContent`
(src/pdf/generator.ts lines 54-63): when the node carries an `image`
key whose dimensions are known, assign its footprint into the
accumulator. -/
def assignImage (dims : String → Option ImageDimensions)
    (img : Option String) (acc : List (String × ℚ)) : List (String × ℚ) :=
  match img with
  | some id =>
    match dims id with
    | some d => setEntry acc id (imageFootprint d)
    | none => acc
  | none => acc

mutual

/-- Embedding of the body of `processContent` for a single item
(src/pdf/generator.ts lines 52-70): a node's `image` key is looked up in
the dimension record and, when dimensions are known, its footprint is
assigned into the accumulator; then the `stack` and `columns` keys — and
only those — are recursed into.  The three checks in the source are
independent `if`s, so a node carrying several keys takes all the
corresponding actions, in source order. -/
def processItem (dims : String → Option ImageDimensions) :
    ContentNode → List (String × ℚ) → List (String × ℚ)
  | .mk img stk cols _ _ _, acc =>
    let acc1 := assignImage dims img acc
    let acc2 :=
      match stk with
      | some items => processList dims items acc1
      | none => acc1
    match cols with
    | some items => processList dims items acc2
    | none => acc2

/-- Embedding of the `for` loop of `processContent` over a list of items
(src/pdf/generator.ts line 52). -/
def processList (dims : String → Option ImageDimensions) :
    List ContentNode → List (String × ℚ) → List (String × ℚ)
  | [], acc => acc
  | item :: rest, acc => processList dims rest (processItem dims item acc)

end

/-- Embedding of `calculateImageHeights` (src/pdf/generator.ts lines
45-76). -/
def calculateImageHeights (content : List ContentNode)
    (dims : String → Option ImageDimensions) : List (String × ℚ) :=
  processList dims content []

/-! Embedding of `measureContentHeight` (src/pdf/generator.ts lines
170-215).  The external layout engine drives the `pageBreakBefore`
callback once per node whose position it resolves; the embedding takes
the sequence of callback arguments as a list of observed nodes and
replays the callback body as a fold.  The local `pageCount` variable of
the source is tracked but never returned, so it is omitted. -/

structure NodePosition where
  pageNumber : ℚ
  top : ℚ

structure ObservedNode where
  image : Option String
  startPosition : Option NodePosition
  height : Option ℚ

/-- Bottom edge of an observed node that carries a position
(src/pdf/generator.ts lines 200-201): `(pageNumber - 1) *
pageHeightUsable + top + (height || 0)`. -/
def nodeBottom (usable : ℚ) (n : ObservedNode) (sp : NodePosition) : ℚ :=
  (sp.pageNumber - 1) * usable + sp.top + n.height.getD 0

/-- Embedding of one invocation of the `pageBreakBefore` callback
(src/pdf/generator.ts lines 185-206) acting on the state
(maxY, measuredImageHeights).  An image node records
`startPosition?.top || 0`; a positioned node raises the running
maximum to its bottom edge. -/
def measureStep (usable : ℚ) (st : ℚ × List (String × ℚ))
    (n : ObservedNode) : ℚ × List (String × ℚ) :=
  let tops :=
    match n.image with
    | some id =>
      setEntry st.2 id (match n.startPosition with
                        | some sp => sp.top
                        | none => 0)
    | none => st.2
  let maxY :=
    match n.startPosition with
    | some sp => max st.1 (nodeBottom usable n sp)
    | none => st.1
  (maxY, tops)

/-- Page height usable per logical page during measurement
(src/pdf/generator.ts line 180): `MAX_PAGE_HEIGHT - pageMargins[1] -
pageMargins[3]`. -/
def pageHeightUsable (topMargin bottomMargin : ℚ) : ℚ :=
  MAX_PAGE_HEIGHT - topMargin - bottomMargin

/-- Embedding of `measureContentHeight` (src/pdf/generator.ts lines
170-215), replaying the observation callbacks over the initial state
`maxY = 0`, no recorded image tops. -/
def measureContentHeight (topMargin bottomMargin : ℚ)
    (observations : List ObservedNode) : MeasurementResult :=
  let usable := pageHeightUsable topMargin bottomMargin
  let st := observations.foldl (measureStep usable) (0, [])
  ⟨st.1, st.2⟩

/-- Bottom edges of the observed nodes that carry a position, in
observation order; the running maximum of `measureContentHeight` is
claimed to be the maximum of this list. -/
def nodeBottoms (usable : ℚ) (observations : List ObservedNode) : List ℚ :=
  observations.filterMap
    (fun n => n.startPosition.map (fun sp => nodeBottom usable n sp))

/-! Embedding of the canvas resizer (src/pdf/generator.ts lines
292-314).  A page of the post-processing library is abstracted by its
width, its height and the cumulative translation applied to its
content; `setSize` rewrites the height, `translateContent` adds to the
cumulative translation, and the trailing `while` loop removes every
page after the first. -/

structure Page where
  width : ℚ
  height : ℚ
  translation : ℚ

/-- Embedding of the resize pass (src/pdf/generator.ts lines 292-314):
when at least one page exists, the first page is set to the target
height and its content translated once by
`targetHeight - MAX_PAGE_HEIGHT`; every further page is removed.  An
empty page list is returned unmodified. -/
def resizePages (pages : List Page) (targetHeight : ℚ) : List Page :=
  match pages with
  | [] => []
  | p :: _ =>
    [{ width := p.width
       height := targetHeight
       translation := p.translation + (targetHeight - MAX_PAGE_HEIGHT) }]

/-! Embedding of the image header parsers (src/images/loader.ts lines
15-55).  A buffer is a list of byte values; `DataView.getUint16` and
`getUint32` throw a RangeError when the read crosses the end of the
buffer, embedded as `Except.error ()`. -/

structure PixelDimensions where
  width : ℕ
  height : ℕ
deriving DecidableEq

/-- Big-endian 16-bit read of `DataView.getUint16`; out-of-bounds reads
throw. -/
def getUint16 (buf : List ℕ) (i : ℕ) : Except Unit ℕ :=
  match buf[i]?, buf[i + 1]? with
  | some a, some b => .ok (a * 256 + b)
  | _, _ => .error ()

/-- Big-endian 32-bit read of `DataView.getUint32`; out-of-bounds reads
throw. -/
def getUint32 (buf : List ℕ) (i : ℕ) : Except Unit ℕ :=
  match buf[i]?, buf[i + 1]?, buf[i + 2]?, buf[i + 3]? with
  | some a, some b, some c, some d =>
    .ok (((a * 256 + b) * 256 + c) * 256 + d)
  | _, _, _, _ => .error ()

/-- Embedding of `getPngDimensions` (src/images/loader.ts lines 15-23):
check the 4-byte signature word at offset 0, then read width at offset
16 and height at offset 20.  A read past the end of the buffer
propagates as an error (the thrown RangeError). -/
def getPngDimensions (buf : List ℕ) : Except Unit (Option PixelDimensions) :=
  match getUint32 buf 0 with
  | .error e => .error e
  | .ok sig =>
    if sig ≠ 0x89504e47 then
      .ok none
    else
      match getUint32 buf 16 with
      | .error e => .error e
      | .ok width =>
        match getUint32 buf 20 with
        | .error e => .error e
        | .ok height => .ok (some ⟨width, height⟩)

/-- SOF-family test of src/images/loader.ts lines 37-40. -/
def isSofMarker (marker : ℕ) : Bool :=
  (0xffc0 ≤ marker ∧ marker ≤ 0xffc3) ∨
  (0xffc5 ≤ marker ∧ marker ≤ 0xffc7) ∨
  (0xffc9 ≤ marker ∧ marker ≤ 0xffcb) ∨
  (0xffcd ≤ marker ∧ marker ≤ 0xffcf)

/-- Embedding of the `while` loop of `getJpegDimensions`
(src/images/loader.ts lines 32-53), with an explicit fuel argument;
`none` means the fuel ran out before the loop finished.  The loop reads
a marker (advancing by 2), returns the dimensions at an SOF marker,
stops at EOI, continues at SOI and RST markers, and otherwise skips the
16-bit segment length it reads.  Every read past the buffer end
propagates as the thrown RangeError. -/
def jpegScan (buf : List ℕ) : ℕ → ℕ → Option (Except Unit (Option PixelDimensions))
  | _, 0 => none
  | offset, fuel + 1 =>
    if offset < buf.length then
      match getUint16 buf offset with
      | .error _ => some (.error ())
      | .ok marker =>
        let afterMarker := offset + 2
        if isSofMarker marker then
          match getUint16 buf (afterMarker + 3) with
          | .error _ => some (.error ())
          | .ok height =>
            match getUint16 buf (afterMarker + 5) with
            | .error _ => some (.error ())
            | .ok width => some (.ok (some ⟨width, height⟩))
        else if marker = 0xffd9 then
          some (.ok none)
        else if marker = 0xffd8 then
          jpegScan buf afterMarker fuel
        else if 0xffd0 ≤ marker ∧ marker ≤ 0xffd7 then
          jpegScan buf afterMarker fuel
        else
          match getUint16 buf afterMarker with
          | .error _ => some (.error ())
          | .ok len => jpegScan buf (afterMarker + len) fuel
    else
      some (.ok none)

/-- Embedding of `getJpegDimensions` (src/images/loader.ts lines
26-55): check the SOI word at offset 0, then run the marker scan from
offset 2.  The fuel `buf.length + 1` is sufficient (theorem
`jpegScan_isSome` below), so the `getD` default is never taken. -/
def getJpegDimensions (buf : List ℕ) : Except Unit (Option PixelDimensions) :=
  match getUint16 buf 0 with
  | .error _ => .error ()
  | .ok sig =>
    if sig ≠ 0xffd8 then
      .ok none
    else
      (jpegScan buf 2 (buf.length + 1)).getD (.ok none)

/-! Embedding of `renderImage` (renderer block module, lines 296-313):
the renderer allocates the next image id, collects the image info into
the context, and emits a content node with `fit: [500, 400]` and the
image margins. -/

structure ImageInfo where
  id : String
  href : String
  alt : String

structure RenderedImage where
  image : String
  fit : ℚ × ℚ
  margin : MarginBox

/-- Embedding of `renderImage`: returns the emitted content node and
the context's collected-image list after the push. -/
def renderImage (collected : List ImageInfo) (href alt : String) :
    RenderedImage × List ImageInfo :=
  let imageId := "img_" ++ toString collected.length
  (⟨imageId, (500, 400), imageMargin⟩,
   collected ++ [⟨imageId, href, alt⟩])

/-! Helper lemmas about association-list assignment. -/

theorem lookup_map_overwrite_self (k : String) (v : ℚ) :
    ∀ l : List (String × ℚ), l.any (fun p => p.1 = k) →
      List.lookup k (l.map (fun p => if p.1 = k then (k, v) else p)) = some v := by
  intro l
  induction l with
  | nil => simp
  | cons p rest ih =>
    intro hany
    rw [List.map_cons]
    by_cases hp : p.1 = k
    · rw [if_pos hp]
      simp [List.lookup]
    · rw [if_neg hp]
      have hrest : rest.any (fun p => p.1 = k) := by
        simpa [List.any_cons, hp] using hany
      have hk : (k == p.1) = false := by
        simp [beq_iff_eq]
        exact fun h => hp h.symm
      simp [List.lookup, hk, ih hrest]

theorem lookup_map_overwrite_ne (k k' : String) (v : ℚ) (hne : k' ≠ k) :
    ∀ l : List (String × ℚ),
      List.lookup k' (l.map (fun p => if p.1 = k then (k, v) else p)) =
        List.lookup k' l := by
  intro l
  induction l with
  | nil => simp
  | cons p rest ih =>
    rw [List.map_cons]
    by_cases hp : p.1 = k
    · rw [if_pos hp]
      have hk : (k' == k) = false := by simpa [beq_iff_eq] using hne
      have hk2 : (k' == p.1) = false := by
        rw [hp]
        exact hk
      simp [List.lookup, hk, hk2, ih]
    · rw [if_neg hp]
      by_cases hk' : k' = p.1
      · have h1 : (k' == p.1) = true := by simpa [beq_iff_eq] using hk'
        simp [List.lookup, h1]
      · have h1 : (k' == p.1) = false := by simpa [beq_iff_eq] using hk'
        simp [List.lookup, h1, ih]

theorem lookup_append_singleton_self (k : String) (v : ℚ) :
    ∀ l : List (String × ℚ), ¬ l.any (fun p => p.1 = k) →
      List.lookup k (l ++ [(k, v)]) = some v := by
  intro l
  induction l with
  | nil => simp [List.lookup]
  | cons p rest ih =>
    intro hany
    have hp : ¬ p.1 = k := by
      intro h
      exact hany (by simp [List.any_cons, h])
    have hrest : ¬ rest.any (fun p => p.1 = k) := by
      intro h
      exact hany (by simp [List.any_cons, h])
    have hk : ¬ (k == p.1) = true := by
      simp [beq_iff_eq]
      exact fun h => hp h.symm
    simp [List.lookup, hk, ih hrest]

theorem lookup_append_singleton_ne (k k' : String) (v : ℚ) (hne : k' ≠ k) :
    ∀ l : List (String × ℚ),
      List.lookup k' (l ++ [(k, v)]) = List.lookup k' l := by
  intro l
  induction l with
  | nil =>
    have hk : ¬ (k' == k) = true := by simpa [beq_iff_eq] using hne
    simp [List.lookup, hk]
  | cons p rest ih =>
    by_cases hk' : k' = p.1
    · simp [List.lookup, hk']
    · have h1 : ¬ (k' == p.1) = true := by simpa [beq_iff_eq] using hk'
      simp [List.lookup, h1, ih]

theorem lookup_setEntry_self (l : List (String × ℚ)) (k : String) (v : ℚ) :
    List.lookup k (setEntry l k v) = some v := by
  unfold setEntry
  split
  · exact lookup_map_overwrite_self k v l (by assumption)
  · exact lookup_append_singleton_self k v l (by assumption)

theorem lookup_setEntry_ne (l : List (String × ℚ)) (k k' : String) (v : ℚ)
    (hne : k' ≠ k) :
    List.lookup k' (setEntry l k v) = List.lookup k' l := by
  unfold setEntry
  split
  · exact lookup_map_overwrite_ne k k' v hne l
  · exact lookup_append_singleton_ne k k' v hne l

/-! Helper lemmas about folding `max` over rationals from an initial
value, mirroring the `Math.max` accumulation loops of the source. -/

theorem foldl_max_le_init (l : List ℚ) :
    ∀ a : ℚ, a ≤ List.foldl max a l := by
  induction l with
  | nil => intro a; simp
  | cons x rest ih =>
    intro a
    calc a ≤ max a x := le_max_left a x
    _ ≤ List.foldl max (max a x) rest := ih (max a x)

theorem foldl_max_le_mem (l : List ℚ) :
    ∀ a b : ℚ, b ∈ l → b ≤ List.foldl max a l := by
  induction l with
  | nil => intro a b h; simp at h
  | cons x rest ih =>
    intro a b h
    rcases List.mem_cons.mp h with h | h
    · subst h
      calc b ≤ max a b := le_max_right a b
      _ ≤ List.foldl max (max a b) rest := foldl_max_le_init rest (max a b)
    · exact ih (max a x) b h

theorem foldl_max_eq_init_or_mem (l : List ℚ) :
    ∀ a : ℚ, List.foldl max a l = a ∨ List.foldl max a l ∈ l := by
  induction l with
  | nil => intro a; left; rfl
  | cons x rest ih =>
    intro a
    rcases ih (max a x) with h | h
    · rcases max_cases a x with ⟨hm, _⟩ | ⟨hm, _⟩
      · left
        rw [List.foldl_cons, h, hm]
      · right
        rw [List.foldl_cons, h, hm]
        exact List.mem_cons_self x rest
    · right
      exact List.mem_cons_of_mem x h

/-! Helper lemma relating the measurement fold to a fold of `max` over
the positioned nodes' bottom edges. -/

theorem measure_foldl_fst (usable : ℚ) :
    ∀ (observations : List ObservedNode) (y : ℚ) (tops : List (String × ℚ)),
      (observations.foldl (measureStep usable) (y, tops)).1 =
        List.foldl max y (nodeBottoms usable observations) := by
  intro observations
  induction observations with
  | nil => intro y tops; simp [nodeBottoms]
  | cons n rest ih =>
    intro y tops
    cases hsp : n.startPosition with
    | none =>
      simp [List.foldl_cons, measureStep, hsp, nodeBottoms, List.filterMap_cons, ih]
    | some sp =>
      simp [List.foldl_cons, measureStep, hsp, nodeBottoms, List.filterMap_cons, ih]

/-! Boolean reachability of an image id through the keys the
footprint traversal recurses into (`stack` and `columns`). -/

mutual

def reachesImage (c : ContentNode) (id : String) : Bool :=
  match c with
  | .mk img stk cols _ _ _ =>
    (img == some id)
    || (match stk with
        | some items => reachesAny items id
        | none => false)
    || (match cols with
        | some items => reachesAny items id
        | none => false)

def reachesAny (items : List ContentNode) (id : String) : Bool :=
  match items with
  | [] => false
  | c :: rest => reachesImage c id || reachesAny rest id

end

theorem lookup_assignImage (dims : String → Option ImageDimensions)
    (id : String) (d : ImageDimensions) (hd : dims id = some d)
    (img : Option String) (acc : List (String × ℚ)) :
    List.lookup id (assignImage dims img acc) =
      if img == some id then some (imageFootprint d)
      else List.lookup id acc := by
  cases img with
  | none => simp [assignImage]
  | some id2 =>
    by_cases h : id2 = id
    · subst h
      simp [assignImage, hd, lookup_setEntry_self]
    · have hbeq : (some id2 == some id) = false := by simp [h]
      cases hdim : dims id2 with
      | none => simp [assignImage, hdim, hbeq]
      | some d2 =>
        simp [assignImage, hdim, hbeq,
          lookup_setEntry_ne acc id2 id (imageFootprint d2) (fun he => h he.symm)]

/-- Joint characterization of the traversal of `calculateImageHeights`:
fixing an image id whose dimensions are known, a node (resp. node list)
contributes exactly the footprint entry for that id when the id is
reachable through `image`, `stack` and `columns` keys, and leaves the
id's entry unchanged otherwise.  Proved by strong induction on the
size of the tree. -/
theorem lookup_process_aux (dims : String → Option ImageDimensions)
    (id : String) (d : ImageDimensions) (hd : dims id = some d) :
    ∀ N : ℕ,
      (∀ item : ContentNode, sizeOf item ≤ N → ∀ acc,
        List.lookup id (processItem dims item acc) =
          if reachesImage item id then some (imageFootprint d)
          else List.lookup id acc)
      ∧ (∀ items : List ContentNode, sizeOf items ≤ N → ∀ acc,
        List.lookup id (processList dims items acc) =
          if reachesAny items id then some (imageFootprint d)
          else List.lookup id acc) := by
  intro N
  induction N with
  | zero =>
    constructor
    · intro item hsz
      exfalso
      cases item
      simp at hsz
    · intro items hsz
      exfalso
      cases items <;> simp at hsz
  | succ N ih =>
    constructor
    · intro item hsz acc
      cases item with
      | mk img stk cols olx ulx tbl =>
        simp only [ContentNode.mk.sizeOf_spec] at hsz
        cases stk with
        | none =>
          cases cols with
          | none =>
            simp only [processItem, reachesImage]
            rw [lookup_assignImage dims id d hd img acc]
            by_cases h1 : (img == some id) = true <;> simp [h1]
          | some colsItems =>
            have hc : sizeOf colsItems ≤ N := by
              simp only [Option.some.sizeOf_spec] at hsz
              omega
            simp only [processItem, reachesImage]
            rw [ih.2 colsItems hc]
            rw [lookup_assignImage dims id d hd img acc]
            by_cases h1 : (img == some id) = true <;>
              by_cases h3 : reachesAny colsItems id = true <;> simp [h1, h3]
        | some stkItems =>
          have hs : sizeOf stkItems ≤ N := by
            simp only [Option.some.sizeOf_spec] at hsz
            omega
          cases cols with
          | none =>
            simp only [processItem, reachesImage]
            rw [ih.2 stkItems hs]
            rw [lookup_assignImage dims id d hd img acc]
            by_cases h1 : (img == some id) = true <;>
              by_cases h2 : reachesAny stkItems id = true <;> simp [h1, h2]
          | some colsItems =>
            have hc : sizeOf colsItems ≤ N := by
              simp only [Option.some.sizeOf_spec] at hsz
              omega
            simp only [processItem, reachesImage]
            rw [ih.2 colsItems hc]
            rw [ih.2 stkItems hs]
            rw [lookup_assignImage dims id d hd img acc]
            by_cases h1 : (img == some id) = true <;>
              by_cases h2 : reachesAny stkItems id = true <;>
              by_cases h3 : reachesAny colsItems id = true <;> simp [h1, h2, h3]
    · intro items hsz acc
      cases items with
      | nil => simp [processList, reachesAny]
      | cons c rest =>
        have h1 : sizeOf c ≤ N := by
          simp only [List.cons.sizeOf_spec] at hsz
          omega
        have h2 : sizeOf rest ≤ N := by
          simp only [List.cons.sizeOf_spec] at hsz
          omega
        simp only [processList, reachesAny]
        rw [ih.2 rest h2, ih.1 c h1]
        by_cases hb : reachesImage c id = true <;>
          by_cases hb2 : reachesAny rest id = true <;> simp [hb, hb2]

end Md2Pdf

namespace Md2Pdf

/-! Concrete fixtures used by witnesses and counterexamples. -/

/-- Dimension record mapping image id "b" to 1000×500. -/
def dimsB : String → Option ImageDimensions :=
  fun id => if id = "b" then some ⟨1000, 500⟩ else none

/-- Dimension record mapping image id "a" to 800×600. -/
def dimsA : String → Option ImageDimensions :=
  fun id => if id = "a" then some ⟨800, 600⟩ else none

/-- Dimension record mapping image id "a" to the degenerate 800×0. -/
def dimsZeroHeight : String → Option ImageDimensions :=
  fun id => if id = "a" then some ⟨800, 0⟩ else none

/-- Content tree whose only image sits inside an ol (ordered list)
container. -/
def contentImageInList : List ContentNode :=
  [ContentNode.mk none none none (some [imageNode "a"]) none none]

/-- Content tree whose only image sits inside a stack container. -/
def contentImageInStack : List ContentNode :=
  [ContentNode.mk none (some [imageNode "b"]) none none none none]

/-- C1: for every image with positive pixel dimensions the rendered
height computed by `calculateImageHeight` follows the 500×400 fit rule:
if pixelWidth/pixelHeight exceeds 500/400 the result is
500/(pixelWidth/pixelHeight), otherwise min(pixelHeight, 400); in
particular a 1000×500 image yields 250 and a 400×1000 image yields
400. -/
theorem calculateImageHeight_fit_rule (w h : ℚ) (hw : 0 < w) (hh : 0 < h) :
    (calculateImageHeight ⟨w, h⟩ =
      if w / h > 500 / 400 then 500 / (w / h) else min h 400)
    ∧ calculateImageHeight ⟨1000, 500⟩ = 250
    ∧ calculateImageHeight ⟨400, 1000⟩ = 400 := by
  refine ⟨?_, ?_, ?_⟩
  · simp only [calculateImageHeight, IMAGE_FIT_WIDTH, IMAGE_FIT_HEIGHT]
  · norm_num [calculateImageHeight, IMAGE_FIT_WIDTH, IMAGE_FIT_HEIGHT]
  · norm_num [calculateImageHeight, IMAGE_FIT_WIDTH, IMAGE_FIT_HEIGHT]

/-- Witness for C1 at the concrete 1000×500 image. -/
theorem calculateImageHeight_fit_rule_witness :
    calculateImageHeight ⟨1000, 500⟩ = 250 :=
  (calculateImageHeight_fit_rule 1000 500 (by norm_num) (by norm_num)).2.1

/-- C2: for every measurement result and every per-image footprint
list, the corrected extent is at least the measured maxY — the
correction added is non-negative in every branch (top-offset
reconciliation, empirical fallback, and no-images case). -/
theorem correctedContentHeight_ge_maxY (m : MeasurementResult)
    (footprints : List (String × ℚ)) :
    m.maxY ≤ correctedContentHeight m footprints := by
  simp only [correctedContentHeight]
  split
  · split
    next hlt => linarith
    next => simp
  · split
    next hpos =>
      have hc : 0 < totalOfFootprints footprints * (22 / 100) :=
        mul_pos hpos (by norm_num)
      linarith
    next => exact le_refl _

/-- C3: with no recorded image positions and zero total image
footprint, the corrected extent equals the measured maxY exactly and
the target page height is topMargin + maxY + bottomMargin + 25. -/
theorem correctedContentHeight_no_images (m : MeasurementResult)
    (footprints : List (String × ℚ)) (tm bm : ℚ)
    (hpos : m.measuredImageHeights = [])
    (htot : totalOfFootprints footprints = 0) :
    correctedContentHeight m footprints = m.maxY
    ∧ targetPageHeight tm bm (correctedContentHeight m footprints) =
        tm + m.maxY + bm + 25 := by
  have h1 : correctedContentHeight m footprints = m.maxY := by
    unfold correctedContentHeight
    simp [hpos, htot]
  refine ⟨h1, ?_⟩
  rw [h1]
  unfold targetPageHeight
  ring

/-- Witness for C3 at a concrete empty-images measurement. -/
theorem correctedContentHeight_no_images_witness :
    correctedContentHeight ⟨123, []⟩ [] = 123
    ∧ targetPageHeight 40 40 (correctedContentHeight ⟨123, []⟩ []) =
        40 + 123 + 40 + 25 :=
  correctedContentHeight_no_images ⟨123, []⟩ [] 40 40 rfl rfl

/-- C5 (amended): every image reference reachable from the content tree
through stack or columns containers whose pixel dimensions are known
receives its fit-rule footprint (rendered height plus top and bottom
image margins) in the per-image footprint map; container keys other
than stack and columns are not traversed. -/
theorem calculateImageHeights_includes_reachable
    (content : List ContentNode) (dims : String → Option ImageDimensions)
    (id : String) (d : ImageDimensions)
    (hd : dims id = some d) (hreach : reachesAny content id = true) :
    List.lookup id (calculateImageHeights content dims) =
      some (imageFootprint d) := by
  have h := (lookup_process_aux dims id d hd (sizeOf content)).2 content le_rfl []
  rw [calculateImageHeights, h, if_pos hreach]

/-- Witness for C5 (amended): a 1000×500 image inside a stack gets
footprint 250 + 10 + 10 = 270. -/
theorem calculateImageHeights_includes_reachable_witness :
    List.lookup "b" (calculateImageHeights contentImageInStack dimsB) =
      some 270 := by
  have h := calculateImageHeights_includes_reachable contentImageInStack dimsB
    "b" ⟨1000, 500⟩ (by simp [dimsB])
    (by simp [contentImageInStack, reachesAny, reachesImage, imageNode])
  rw [h]
  norm_num [imageFootprint, calculateImageHeight, IMAGE_FIT_WIDTH,
    IMAGE_FIT_HEIGHT, imageMargin]

/-- C5 (counterexample): an image nested in an ol (list) container,
with known dimensions, is absent from the per-image footprint map — the
traversal recurses only into stack and columns keys. -/
theorem calculateImageHeights_misses_list_image :
    List.lookup "a" (calculateImageHeights contentImageInList dimsA) = none := by
  simp [calculateImageHeights, contentImageInList, dimsA, processList,
    processItem, assignImage, imageNode]

/-- C9: the fit box constants used by the image extent calculator equal
the fit pair the renderer attaches to every image content node, and
both are (500, 400). -/
theorem fit_constants_agree (collected : List ImageInfo) (href alt : String) :
    (renderImage collected href alt).1.fit = (IMAGE_FIT_WIDTH, IMAGE_FIT_HEIGHT)
    ∧ (IMAGE_FIT_WIDTH, IMAGE_FIT_HEIGHT) = ((500 : ℚ), (400 : ℚ)) :=
  ⟨rfl, rfl⟩

end Md2Pdf

namespace Md2Pdf

/-- Well-formed 24-byte PNG header buffer encoding width 800 and
height 600. -/
def png24 : List ℕ :=
  [0x89, 0x50, 0x4e, 0x47] ++ List.replicate 12 0 ++ [0, 0, 3, 32, 0, 0, 2, 88]

/-- PNG header buffer whose height field encodes 0 (width 800). -/
def pngZeroHeightBuf : List ℕ :=
  [0x89, 0x50, 0x4e, 0x47] ++ List.replicate 12 0 ++ [0, 0, 3, 32, 0, 0, 0, 0]

/-- JPEG buffer with an APP0 segment whose length field is zero,
followed by EOI. -/
def jpegZeroLenBuf : List ℕ := [0xff, 0xd8, 0xff, 0xe0, 0x00, 0x00, 0xff, 0xd9]

theorem getUint32_ok (buf : List ℕ) (i : ℕ) (h : i + 4 ≤ buf.length) :
    ∃ v, getUint32 buf i = Except.ok v := by
  have h0 : i < buf.length := by omega
  have h1 : i + 1 < buf.length := by omega
  have h2 : i + 2 < buf.length := by omega
  have h3 : i + 3 < buf.length := by omega
  rw [getUint32, List.getElem?_eq_getElem h0, List.getElem?_eq_getElem h1,
    List.getElem?_eq_getElem h2, List.getElem?_eq_getElem h3]
  exact ⟨_, rfl⟩

/-- C4 (counterexample): both header parsers throw (RangeError) on
truncated buffers instead of yielding no result: a 4-byte buffer with a
valid PNG signature makes the PNG path read out of bounds at offset 16,
and a 3-byte buffer starting with the SOI marker makes the JPEG path
read out of bounds at offset 2. -/
theorem headerParsers_throw_on_truncated :
    getPngDimensions [0x89, 0x50, 0x4e, 0x47] = Except.error ()
    ∧ getJpegDimensions [0xff, 0xd8, 0xff] = Except.error () := by
  constructor
  · rfl
  · rfl

/-- C4 (amended): the PNG parser never throws on buffers of at least 24
bytes — every such buffer yields dimensions or no result; buffers
shorter than the fixed offsets it reads make it throw a range error
(caught by the enclosing image loader), as the counterexample shows. -/
theorem getPngDimensions_total_of_length (buf : List ℕ)
    (h : 24 ≤ buf.length) :
    ∃ r, getPngDimensions buf = Except.ok r := by
  obtain ⟨s, hs⟩ := getUint32_ok buf 0 (by omega)
  by_cases hsig : s = 0x89504e47
  · obtain ⟨w, hw⟩ := getUint32_ok buf 16 (by omega)
    obtain ⟨ht, hh⟩ := getUint32_ok buf 20 (by omega)
    exact ⟨some ⟨w, ht⟩, by simp [getPngDimensions, hs, hsig, hw, hh]⟩
  · exact ⟨none, by simp [getPngDimensions, hs, hsig]⟩

/-- Witness for C4 (amended) at a concrete 24-byte PNG header. -/
theorem getPngDimensions_total_of_length_witness :
    ∃ r, getPngDimensions png24 = Except.ok r :=
  getPngDimensions_total_of_length png24 (by decide)

/-- C6: the measurement driver's maxY is the maximum, over the observed
nodes carrying a resolved position, of
(pageNumber - 1) * (MAX_PAGE_HEIGHT - topMargin - bottomMargin) + top +
height (height taken as 0 when absent), and is 0 when no such node
exists; stated under the spec's global assumption that the computed
bottom edges are non-negative. -/
theorem measureContentHeight_maxY_is_max (tm bm : ℚ)
    (observations : List ObservedNode)
    (hnonneg : ∀ b ∈ nodeBottoms (pageHeightUsable tm bm) observations, 0 ≤ b) :
    (∀ b ∈ nodeBottoms (pageHeightUsable tm bm) observations,
        b ≤ (measureContentHeight tm bm observations).maxY)
    ∧ (nodeBottoms (pageHeightUsable tm bm) observations = [] →
        (measureContentHeight tm bm observations).maxY = 0)
    ∧ (nodeBottoms (pageHeightUsable tm bm) observations ≠ [] →
        (measureContentHeight tm bm observations).maxY ∈
          nodeBottoms (pageHeightUsable tm bm) observations) := by
  have hfold : (measureContentHeight tm bm observations).maxY =
      List.foldl max 0 (nodeBottoms (pageHeightUsable tm bm) observations) := by
    simp only [measureContentHeight]
    exact measure_foldl_fst (pageHeightUsable tm bm) observations 0 []
  refine ⟨?_, ?_, ?_⟩
  · intro b hb
    rw [hfold]
    exact foldl_max_le_mem _ 0 b hb
  · intro h
    rw [hfold, h]
    rfl
  · intro hne
    rw [hfold]
    rcases foldl_max_eq_init_or_mem
        (nodeBottoms (pageHeightUsable tm bm) observations) 0 with h | h
    · obtain ⟨b, hb⟩ := List.exists_mem_of_ne_nil _ hne
      have h1 := foldl_max_le_mem
        (nodeBottoms (pageHeightUsable tm bm) observations) 0 b hb
      rw [h] at h1
      have h2 := hnonneg b hb
      rw [h]
      exact le_antisymm h1 h2 ▸ hb
    · exact h

/-- Concrete observation list for the C6 witness: one node on page 1 at
top 100 with height 50, one node without a position. -/
def obsW : List ObservedNode :=
  [⟨none, some ⟨1, 100⟩, some 50⟩, ⟨none, none, none⟩]

/-- Witness for C6 at the concrete observation list. -/
theorem measureContentHeight_maxY_is_max_witness :
    (measureContentHeight 40 40 obsW).maxY ∈
      nodeBottoms (pageHeightUsable 40 40) obsW := by
  have h := measureContentHeight_maxY_is_max 40 40 obsW (by
    intro b hb
    simp [nodeBottoms, nodeBottom, obsW] at hb
    norm_num [hb])
  exact h.2.2 (by simp [nodeBottoms, nodeBottom, obsW])

/-- C7 (counterexample): a pixelHeight of 0 is not rejected: the PNG
parser returns an 800×0 record from a header encoding height 0, and
such a record is passed to the rendered-height computation — the
per-image map contains its footprint entry. -/
theorem zero_height_not_rejected :
    getPngDimensions pngZeroHeightBuf = Except.ok (some ⟨800, 0⟩)
    ∧ calculateImageHeights [imageNode "a"] dimsZeroHeight =
        [("a", imageFootprint ⟨800, 0⟩)]
    ∧ imageFootprint ⟨800, 0⟩ = 20 := by
  refine ⟨rfl, ?_, ?_⟩
  · simp [calculateImageHeights, processList, processItem, assignImage,
      dimsZeroHeight, imageNode, setEntry]
  · norm_num [imageFootprint, calculateImageHeight, IMAGE_FIT_WIDTH,
      IMAGE_FIT_HEIGHT, imageMargin]

/-- C7 (amended): zero pixelHeight is not rejected and flows into the
fit-rule arithmetic, but the computed rendered height is then 0 for any
width (in the source the division yields Infinity or NaN and the result
is likewise 0), so such an image contributes only its 20 units of
margins. -/
theorem calculateImageHeight_zero_height (w : ℚ) :
    calculateImageHeight ⟨w, 0⟩ = 0 ∧ imageFootprint ⟨w, 0⟩ = 20 := by
  have h : calculateImageHeight ⟨w, 0⟩ = 0 := by
    norm_num [calculateImageHeight, IMAGE_FIT_WIDTH, IMAGE_FIT_HEIGHT]
  exact ⟨h, by norm_num [imageFootprint, h, imageMargin]⟩

/-- C8 (counterexample): the oversized canvas height is 28347, not
28346 — the double product 10000 × 2.83465 is exactly 28346.5 and
Math.round rounds it up — so the translation delta at target height 600
is -27747, not -27746. -/
theorem resize_delta_counterexample :
    MAX_PAGE_HEIGHT = 28347
    ∧ (600 : ℚ) - MAX_PAGE_HEIGHT = -27747
    ∧ ¬ ((600 : ℚ) - MAX_PAGE_HEIGHT = -27746)
    ∧ (resizePages [⟨500, MAX_PAGE_HEIGHT, 0⟩] 600).map Page.translation =
        [-27747] := by
  have hmax : MAX_PAGE_HEIGHT = 28347 := by
    rw [MAX_PAGE_HEIGHT, mm, jsRound]
    norm_num
  refine ⟨hmax, by rw [hmax]; norm_num, by rw [hmax]; norm_num, ?_⟩
  simp [resizePages, Page.translation, hmax]
  norm_num

/-- C8 (amended): with at least one page, the resizer sets the first
page to the target height, translates its content exactly once by
targetHeight - MAX_PAGE_HEIGHT, and discards every other page; for
target height 600 the delta is 600 - 28347 = -27747. -/
theorem resizePages_translates_once (p : Page) (rest : List Page)
    (target : ℚ) :
    resizePages (p :: rest) target =
      [⟨p.width, target, p.translation + (target - MAX_PAGE_HEIGHT)⟩]
    ∧ (600 : ℚ) - MAX_PAGE_HEIGHT = -27747 := by
  constructor
  · rfl
  · rw [show MAX_PAGE_HEIGHT = 28347 by rw [MAX_PAGE_HEIGHT, mm, jsRound]; norm_num]
    norm_num

end Md2Pdf

namespace Md2Pdf

/-- C10: the JPEG marker scan terminates on every finite buffer: the
fueled loop with any fuel of at least buf.length - offset + 1 returns a
result rather than the out-of-fuel sentinel, for every buffer —
including ones whose segment length fields are arbitrary or zero —
because every iteration advances the offset by at least the 2 bytes of
the marker read. -/
theorem jpegScan_total (buf : List ℕ) :
    ∀ (fuel offset : ℕ), buf.length - offset + 1 ≤ fuel →
      (jpegScan buf offset fuel).isSome := by
  intro fuel
  induction fuel with
  | zero =>
    intro offset h
    omega
  | succ F ihf =>
    intro offset h
    rw [jpegScan]
    by_cases hlt : offset < buf.length
    · rw [if_pos hlt]
      cases hm : getUint16 buf offset with
      | error e => simp
      | ok marker =>
        dsimp only
        by_cases hsof : isSofMarker marker = true
        · rw [if_pos hsof]
          cases h3 : getUint16 buf (offset + 2 + 3) with
          | error e => simp
          | ok ht =>
            cases h5 : getUint16 buf (offset + 2 + 5) with
            | error e => simp
            | ok w => simp
        · rw [if_neg hsof]
          by_cases heoi : marker = 0xffd9
          · rw [if_pos heoi]
            simp
          · rw [if_neg heoi]
            by_cases hsoi : marker = 0xffd8
            · rw [if_pos hsoi]
              exact ihf (offset + 2) (by omega)
            · rw [if_neg hsoi]
              by_cases hrst : 0xffd0 ≤ marker ∧ marker ≤ 0xffd7
              · rw [if_pos hrst]
                exact ihf (offset + 2) (by omega)
              · rw [if_neg hrst]
                cases hlen : getUint16 buf (offset + 2) with
                | error e => simp
                | ok len => exact ihf (offset + 2 + len) (by omega)
    · rw [if_neg hlt]
      simp

/-- Witness for C10 at a concrete buffer containing a segment with a
zero length field. -/
theorem jpegScan_total_witness :
    (jpegScan jpegZeroLenBuf 2 7).isSome :=
  jpegScan_total jpegZeroLenBuf 7 2 (by decide)

end Md2Pdf
